import Mathlib

/-!
Shallow embedding of the wurk content server (`web.go`, latest revision).

Go strings are modelled as lists of characters (`GoStr`); the byte-level
operations of the source (`path[:1]`, `path[len-3:]`, `strings.Split`,
`strings.Replace`) become the corresponding list operations, which agree
with the source on ASCII data.  The filesystem, the front-matter parser
and the Markdown engine are external collaborators and appear as explicit
function-valued parameters (`GoFS`, `Env`), so every definition below is a
pure function of the request, the path and that environment.
-/

namespace Wurk

/-- Go string, modelled as a list of characters. -/
abbrev GoStr := List Char

/-- Shorthand turning a Lean string literal into a `GoStr`. -/
def s (x : String) : GoStr := x.data

/-- `l.drop (l.length - n)`: the last `n` characters, Go `x[len(x)-n:]`. -/
def strTakeRight (l : GoStr) (n : Nat) : GoStr := l.drop (l.length - n)

/-- `l.take (l.length - n)`: all but the last `n` characters, Go `x[:len(x)-n]`. -/
def strDropRight (l : GoStr) (n : Nat) : GoStr := l.take (l.length - n)

/-- Go `strings.Split(x, "/")`: split around every slash, keeping empty parts. -/
def goSplitSlash : GoStr → List GoStr
  | [] => [[]]
  | c :: rest =>
    let r := goSplitSlash rest
    if c = '/' then [] :: r
    else
      match r with
      | [] => [[c]]
      | h :: t => (c :: h) :: t

/-- Helper for Go `strings.Replace(x, old, new, 1)`: replace the first
occurrence of `pat` (assumed examined left to right, as in the source). -/
def replaceFirstAux (pat rep : GoStr) : GoStr → GoStr
  | [] => []
  | c :: rest =>
    if pat.isPrefixOf (c :: rest) then rep ++ (c :: rest).drop pat.length
    else c :: replaceFirstAux pat rep rest

/-- Go `strings.Replace(x, old, new, 1)`. An empty `old` inserts `new` once
at the front, matching the Go library. -/
def goReplaceFirst (x pat rep : GoStr) : GoStr :=
  if pat = [] then rep ++ x else replaceFirstAux pat rep x

/-- Component loop of Go `path/filepath.Clean` (Unix rules): drop empty and
`.` components, resolve `..` against the stack, keep leading `..` when the
path is not rooted. -/
def cleanLoop (rooted : Bool) : List GoStr → List GoStr → List GoStr
  | [], acc => acc.reverse
  | c :: rest, acc =>
    if c = [] ∨ c = s "." then cleanLoop rooted rest acc
    else if c = s ".." then
      match acc with
      | [] => if rooted then cleanLoop rooted rest [] else cleanLoop rooted rest [s ".."]
      | top :: accTail =>
        if top = s ".." then cleanLoop rooted rest (c :: top :: accTail)
        else cleanLoop rooted rest accTail
    else cleanLoop rooted rest (c :: acc)

/-- Go `path/filepath.Clean` on Unix paths. -/
def goClean (p : GoStr) : GoStr :=
  if p = [] then s "."
  else
    let rooted := p.take 1 = s "/"
    let comps := cleanLoop rooted (goSplitSlash p) []
    if comps = [] then (if rooted then s "/" else s ".")
    else (if rooted then s "/" else []) ++ (List.intercalate (s "/") comps)

/-- Go `path/filepath.Join`: join the non-empty elements with `/` and clean
the result; all empty yields the empty path. -/
def goFilepathJoinList (elems : List GoStr) : GoStr :=
  let joined := List.intercalate (s "/") (elems.filter (fun e => !e.isEmpty))
  if joined = [] then [] else goClean joined

/-- Two-argument Go `filepath.Join`. -/
def goFilepathJoin (a b : GoStr) : GoStr := goFilepathJoinList [a, b]

/-- A navigable reference (`type Link struct`). -/
structure Link where
  title : GoStr
  path : GoStr
  deriving DecidableEq, Repr

/-- One entry returned by `os.ReadDir`. -/
structure DirEntry where
  name : GoStr
  isDir : Bool
  deriving DecidableEq, Repr

/-- A YAML front-matter value (`interface{}` in the source); the server only
ever asserts `string`, so we distinguish strings from everything else. -/
inductive YamlVal where
  | str : GoStr → YamlVal
  | int : Int → YamlVal
  deriving DecidableEq, Repr

/-- The front-matter mapping `map[string]interface{}`. -/
abbrev FrontMatter := List (GoStr × YamlVal)

/-- Go map lookup `f[k]` with its `ok` flag. -/
def fmGet (f : FrontMatter) (k : GoStr) : Option YamlVal :=
  (f.find? (fun kv => kv.1 = k)).map (fun kv => kv.2)

/-- The local filesystem, an external collaborator. `readFile` models
`os.ReadFile`/`ioutil.ReadFile` (`none` = error), `readDir` models
`os.ReadDir`, `stat` models `os.Stat` succeeding. -/
structure GoFS where
  readFile : GoStr → Option GoStr
  readDir : GoStr → Option (List DirEntry)
  stat : GoStr → Bool

/-- The external collaborators of one request: the filesystem, the
front-matter parser (`front.Matter.Parse`, total because the source ignores
its error) and the Markdown engine (`blackfriday.Run`). -/
structure Env where
  fs : GoFS
  frontParse : GoStr → FrontMatter × GoStr
  markdown : GoStr → GoStr

/-- An inbound request: host header and URL path. -/
structure Request where
  host : GoStr
  urlPath : GoStr
  deriving DecidableEq, Repr

/-- `getUrl`: extract the URL from a local file path. -/
def getUrl (host path : GoStr) : GoStr :=
  goReplaceFirst path (host ++ s "/pub") [] ++ s "/"

/-- `getPubPath`: local public path of a request. -/
def getPubPath (r : Request) : GoStr :=
  goFilepathJoinList [r.host, s "/pub", r.urlPath]

/-- `getTmplPath`: local template path of a host. -/
def getTmplPath (host : GoStr) : GoStr :=
  goFilepathJoin host (s "/templates/")

/-- Display-name normalization in `loadDir`: strip a trailing `.md` when the
name is longer than three characters. -/
def stripMd (f : GoStr) : GoStr :=
  if f.length > 3 ∧ strTakeRight f 3 = s ".md" then strDropRight f 3 else f

/-- The `loadDir` skip rule: hidden entries and the reserved `_index.md`. -/
def skipEntry (e : DirEntry) : Bool :=
  (e.name.take 1 == s ".") || (e.name == s "_index.md")

/-- The link built from one kept directory entry: stripped display name,
link path with a trailing slash for directories. -/
def mkLinkOf (base : GoStr) (e : DirEntry) : Link :=
  ⟨stripMd e.name, base ++ stripMd e.name ++ (if e.isDir then s "/" else [])⟩

/-- The entry loop of `loadDir`: skip hidden and `_index.md` entries, strip
`.md` from display names, keep the first occurrence of each display name
(`cache` is the set of names already emitted). -/
def loadDirLoop (base : GoStr) : List DirEntry → List GoStr → List Link
  | [], _ => []
  | e :: rest, cache =>
    if skipEntry e then loadDirLoop base rest cache
    else
      let d := stripMd e.name
      if d ∈ cache then loadDirLoop base rest cache
      else mkLinkOf base e :: loadDirLoop base rest (d :: cache)

/-- `loadDir`: containment guard first, then `os.ReadDir`, then the entry
loop. The guard precedes the `readDir` call exactly as in the source. -/
def loadDir (env : Env) (host path : GoStr) : Except GoStr (List Link) :=
  if path.length = 0 ∨ path.take 1 = s "/" then Except.error (s "Path not found")
  else
    match env.fs.readDir path with
    | none => Except.error (s "read failure")
    | some files => Except.ok (loadDirLoop (getUrl host path) files [])

/-- The path normalization at the top of `loadPage`: empty becomes `index`,
a trailing slash is stripped, a `.md` suffix (on paths longer than three
characters) is stripped; at most one rule applies. -/
def loadPagePath (path : GoStr) : GoStr :=
  if path.length = 0 then goFilepathJoin path (s "index")
  else if strTakeRight path 1 = s "/" then strDropRight path 1
  else if path.length > 3 ∧ strTakeRight path 3 = s ".md" then strDropRight path 3
  else path

/-- The filename `loadPage` reads for a given input path. -/
def loadPageFilename (path : GoStr) : GoStr := loadPagePath path ++ s ".md"

/-- `loadPage`: normalize, read `<path>.md`, split front matter, render the
body through the Markdown engine. Parse errors of the front-matter library
are ignored by the source, so `frontParse` is total. -/
def loadPage (env : Env) (path : GoStr) : Except GoStr (GoStr × FrontMatter) :=
  let path := loadPagePath path
  match env.fs.readFile (path ++ s ".md") with
  | none => Except.error (s "Page not found: " ++ path)
  | some contents =>
    let fm := env.frontParse contents
    Except.ok (env.markdown fm.2, fm.1)

/-- The per-request view model (`type PageInfo struct`, latest revision).
`rawDate` holds `time.Now()`, represented by its two formatted renderings. -/
structure GoTime where
  dateOnly : GoStr
  hm : GoStr
  deriving DecidableEq, Repr

structure PageInfo where
  breadCrumbLinks : List Link
  title : GoStr
  rawDate : GoTime
  date : GoStr
  timeOfDay : GoStr
  author : GoStr
  dir : List Link
  page : GoStr
  deriving DecidableEq, Repr

/-- A Go type assertion `v.(string)`: panics (modelled as `Except.error`)
on any non-string value. -/
def asString : YamlVal → Except GoStr GoStr
  | .str v => Except.ok v
  | _ => Except.error (s "panic: interface conversion")

/-- Fourth block of `NewPageInfo`: the `title` key. -/
def npTitleStep (f : FrontMatter) (pi : PageInfo) : Except GoStr PageInfo :=
  match fmGet f (s "title") with
  | some v =>
    match asString v with
    | .error e => Except.error e
    | .ok sv => Except.ok { pi with title := sv }
  | none => Except.ok pi

/-- Third block of `NewPageInfo`: the `author` key, then the title block. -/
def npAuthorStep (f : FrontMatter) (pi : PageInfo) : Except GoStr PageInfo :=
  match fmGet f (s "author") with
  | some v =>
    match asString v with
    | .error e => Except.error e
    | .ok sv => npTitleStep f { pi with author := sv }
  | none => npTitleStep f pi

/-- Second block of `NewPageInfo`: the `date` key. When the key is absent
the source fills BOTH `date` and `timeOfDay` from the current clock,
overwriting any value the earlier `time` block stored. -/
def npDateStep (now : GoTime) (f : FrontMatter) (pi : PageInfo) : Except GoStr PageInfo :=
  match fmGet f (s "date") with
  | some v =>
    match asString v with
    | .error e => Except.error e
    | .ok sv => npAuthorStep f { pi with date := sv }
  | none => npAuthorStep f { pi with date := now.dateOnly, timeOfDay := now.hm }

/-- `NewPageInfo` (latest revision): zero-valued record, then the four key
blocks in source order (`time`, `date`, `author`, `title`). Unchecked type
assertions surface as `Except.error` (a Go panic). -/
def NewPageInfo (now : GoTime) (f : FrontMatter) : Except GoStr PageInfo :=
  let pi : PageInfo :=
    { breadCrumbLinks := [], title := [], rawDate := now, date := [],
      timeOfDay := [], author := [], dir := [], page := [] }
  match fmGet f (s "time") with
  | some v =>
    match asString v with
    | .error e => Except.error e
    | .ok sv => npDateStep now f { pi with timeOfDay := sv }
  | none => npDateStep now f pi

/-- Title of one breadcrumb segment: first character upper-cased, then
underscores replaced by spaces (`strings.Replace(title, "_", " ", -1)`). -/
def segTitle (p : GoStr) : GoStr :=
  (match p with
   | [] => []
   | c :: rest => c.toUpper :: rest).map (fun c => if c = '_' then ' ' else c)

/-- The loop of `breadCrumb` over `parts[1:]`: stop at the first empty
segment, otherwise emit a link at the cumulative sub-path. -/
def bcLoop : List GoStr → GoStr → List Link
  | [], _ => []
  | p :: rest, sub =>
    if p.length = 0 then []
    else ⟨segTitle p, sub ++ p⟩ :: bcLoop rest (sub ++ p ++ s "/")

/-- `breadCrumb`: a leading Home link, then the segment loop starting at
index 1 of the slash-split path. -/
def breadCrumb (path : GoStr) : List Link :=
  let parts := goSplitSlash path
  let crumbs : List Link := [⟨s "Home", s "/"⟩]
  if parts.length = 1 then crumbs
  else crumbs ++ bcLoop (parts.drop 1) (s "/")

/-- The branch a request resolves to, with its payload: Markdown page,
verbatim `index.html`, templated directory listing (with optional
`_index.md` summary), raw file, or not found. -/
inductive Outcome where
  | page (html : GoStr) (fm : FrontMatter)
  | htmlIndexServed (contents : GoStr)
  | dirListing (links : List Link) (summary : Option (GoStr × FrontMatter))
  | rawFile (contents : GoStr)
  | notFound
  deriving DecidableEq, Repr

/-- The successful tail of `dirHandler`: serve `<path>/index.html` verbatim
when readable, otherwise a listing with the optional `_index.md` summary. -/
def dirSuccessOutcome (env : Env) (path : GoStr) (dir : List Link) : Outcome :=
  match env.fs.readFile (path ++ s "/index.html") with
  | some c => Outcome.htmlIndexServed c
  | none => Outcome.dirListing dir (loadPage env (path ++ s "/_index.md")).toOption

/-- `dirHandler`: list the directory or answer 404. -/
def dirHandlerOutcome (env : Env) (r : Request) : Outcome :=
  let path := getPubPath r
  match loadDir env r.host path with
  | .error _ => Outcome.notFound
  | .ok dir => dirSuccessOutcome env path dir

/-- `fileHandler`: serve the literal file, falling through to `dirHandler`. -/
def fileHandlerOutcome (env : Env) (r : Request) : Outcome :=
  let path := getPubPath r
  match env.fs.readFile path with
  | none => dirHandlerOutcome env r
  | some c => Outcome.rawFile c

/-- `pageHandler` after the domain check: try the page, then the nested
index page, then fall through to `fileHandler`. -/
def pageHandlerOutcome (env : Env) (r : Request) : Outcome :=
  let path := getPubPath r
  match loadPage env path with
  | .ok hf => Outcome.page hf.1 hf.2
  | .error _ =>
    match loadPage env (goFilepathJoin path (s "index")) with
    | .ok hf => Outcome.page hf.1 hf.2
    | .error _ => fileHandlerOutcome env r

/-- First successful candidate of a list of resolution attempts. -/
def firstSome : List (Option Outcome) → Option Outcome
  | [] => none
  | some o :: _ => some o
  | none :: rest => firstSome rest

/-- Page outcome built from raw file contents (front matter split plus
Markdown rendering), shared by both page candidates. -/
def mkPage (env : Env) (contents : GoStr) : Outcome :=
  let fm := env.frontParse contents
  Outcome.page (env.markdown fm.2) fm.1

/-- Modelled on the candidate list of spec section 4.1 (steps 4-7): the
directory-listing candidate, `none` when the lister fails. -/
def specTryDir (env : Env) (r : Request) : Option Outcome :=
  let path := getPubPath r
  match loadDir env r.host path with
  | .error _ => none
  | .ok dir => some (dirSuccessOutcome env path dir)

/-- Modelled on the wording of the spec: the four candidates
`<root>/<path>.md`, `<root>/<path>/index.md`, `<root>/<path>` as a raw
file, `<path>` as a directory listing, tried in order, first success wins,
`notFound` when all fail. -/
def specResolve (env : Env) (r : Request) : Outcome :=
  let path := getPubPath r
  (firstSome
    [(env.fs.readFile (path ++ s ".md")).map (mkPage env),
     (env.fs.readFile (path ++ s "/index.md")).map (mkPage env),
     (env.fs.readFile path).map Outcome.rawFile,
     specTryDir env r]).getD Outcome.notFound

/-- A cached parsed template with its parse time (`type templateCache`).
The parsed template object is modelled by its source text; time is `Int`. -/
structure TemplateEntry where
  t : GoStr
  ts : Int
  deriving DecidableEq, Repr

abbrev TemplateMap := List (GoStr × TemplateEntry)

/-- Lookup in the template map (Go map indexing with `ok`). -/
def mapLookup (m : TemplateMap) (k : GoStr) : Option TemplateEntry :=
  (m.find? (fun kv => kv.1 = k)).map (fun kv => kv.2)

/-- The cache key used by `renderTemplate`: note the source joins
`tmpl+"html"` (no dot) for the key while parsing `tmpl+".html"`. -/
def tKey (host stage : GoStr) : GoStr :=
  goFilepathJoin (getTmplPath host) (stage ++ s "html")

/-- Result of one `renderTemplate` call: the updated cache, whether
`template.ParseFiles` ran, which template was executed (`none` when the
call errored before executing), and whether a 500 was written. -/
structure RenderStep where
  templates : TemplateMap
  parsed : Bool
  executed : Option GoStr
  errored : Bool
  deriving DecidableEq, Repr

/-- `renderTemplate` (latest revision): reparse on a missing entry or one
whose parse time is before `now - cacheTimeout`; a successful reparse
overwrites the entry with parse time `now` and executes the fresh
template; a parse failure answers 500 and leaves the cache unchanged.
`parseFile` is the outcome of `template.ParseFiles` at this instant. -/
def renderTemplateStep (templates : TemplateMap) (now cacheTimeout : Int)
    (host stage : GoStr) (parseFile : Option GoStr) : RenderStep :=
  let key := tKey host stage
  let stale :=
    match mapLookup templates key with
    | none => true
    | some tc => decide (tc.ts < now - cacheTimeout)
  if stale then
    match parseFile with
    | none => ⟨templates, true, none, true⟩
    | some fresh => ⟨(key, ⟨fresh, now⟩) :: templates, true, some fresh, false⟩
  else
    match mapLookup templates key with
    | some tc => ⟨templates, false, some tc.t, false⟩
    | none => ⟨templates, false, none, true⟩

/-- The body of an HTTP response, at the granularity the claims need:
the inline domain-error page, the plain 404 message, raw bytes, a verbatim
`index.html`, or output of the external template engine. -/
inductive RespBody where
  | domainErr (text : GoStr)
  | notFoundMsg (text : GoStr)
  | raw (contents : GoStr)
  | htmlIndexContent (contents : GoStr)
  | templated
  deriving DecidableEq, Repr

structure HttpResponse where
  status : Nat
  body : RespBody
  deriving DecidableEq, Repr

/-- The constant `domainError` template executed against the host: the
parse of this constant template always succeeds, and `Execute` writes the
substituted text without setting a status code, so the implicit status of
the response is 200. -/
def domainErrorBody (host : GoStr) : GoStr :=
  s "Sorry, this server doesn't know how to serve " ++ host ++ s "!"

/-- `checkDomain`: `some response` when either required subtree is missing
and the inline error page was written; `none` when the host is servable. -/
def checkDomain (env : Env) (host : GoStr) : Option HttpResponse :=
  if env.fs.stat (goFilepathJoin host (s "pub"))
      ∧ env.fs.stat (goFilepathJoin host (s "templates")) then none
  else some ⟨200, RespBody.domainErr (domainErrorBody host)⟩

/-- Response and template-stage sequence of each resolution branch, as the
handlers drive `renderTemplate`: pages render header/view/footer; listings
render header/[view]/dir/footer; raw files and verbatim `index.html`
bypass templating; 404 carries the URL path in its message. -/
def responseOf (r : Request) : Outcome → HttpResponse × List GoStr
  | Outcome.page _ _ => (⟨200, RespBody.templated⟩, [s "header", s "view", s "footer"])
  | Outcome.htmlIndexServed c => (⟨200, RespBody.htmlIndexContent c⟩, [])
  | Outcome.dirListing _ summ =>
    (⟨200, RespBody.templated⟩,
      match summ with
      | some _ => [s "header", s "view", s "dir", s "footer"]
      | none => [s "header", s "dir", s "footer"])
  | Outcome.rawFile c => (⟨200, RespBody.raw c⟩, [])
  | Outcome.notFound =>
    (⟨404, RespBody.notFoundMsg
        (s "Could not load " ++ r.urlPath ++ s ": File not found")⟩, [])

/-- The full `pageHandler`: domain check first (its failure path writes the
inline error page and renders none of the four stages), then resolution
and the stage sequence of the selected branch. -/
def runPageHandler (env : Env) (r : Request) : HttpResponse × List GoStr :=
  match checkDomain env r.host with
  | some resp => (resp, [])
  | none => responseOf r (pageHandlerOutcome env r)

/-- Cumulative breadcrumb links, following the claim wording: each segment
becomes a link at the prefix of all segments so far. -/
def specCumulative (pre : GoStr) : List GoStr → List Link
  | [] => []
  | seg :: rest => ⟨segTitle seg, pre ++ seg⟩ :: specCumulative (pre ++ seg ++ s "/") rest

/-- Modelled on the wording of the breadcrumb claim: a leading Home link,
then one link per non-empty segment (the leading-slash artifact dropped),
stopping at the first empty segment. -/
def specBreadCrumb (path : GoStr) : List Link :=
  ⟨s "Home", s "/"⟩ ::
    specCumulative (s "/")
      (((goSplitSlash path).drop 1).takeWhile (fun seg => !seg.isEmpty))

deriving instance DecidableEq for Except

/-- A concrete filesystem for witnesses: an `index.md` and an `a.md` page
exist, one directory with a single `x.md` entry is listable, every `stat`
succeeds. -/
def fsA : GoFS where
  readFile := fun p =>
    if p = s "index.md" then some (s "# index")
    else if p = s "a.md" then some (s "hello")
    else none
  readDir := fun _ => some [⟨s "x.md", false⟩]
  stat := fun _ => true

/-- Concrete collaborators: identity Markdown engine, front parser that
finds no metadata. -/
def envA : Env := ⟨fsA, fun c => ([], c), fun b => b⟩

/-- A host `h` whose root has a `pub` subtree but no `templates` subtree. -/
def envH : Env :=
  ⟨⟨fun _ => none, fun _ => none, fun p => p == s "h/pub"⟩, fun c => ([], c), fun b => b⟩

def rH : Request := ⟨s "h", s "/x"⟩

/-- Sample time for the PageInfo claims: a clock reading 12:00. -/
def nowT : GoTime := ⟨s "2026-10-11", s "12:00"⟩

/-- A filesystem holding exactly one file, `h/pub/a.md.md`, and no
listable directories: the literal candidate list of the resolution claim
would find `<root>/<path>.md` for the request path `/a.md`, but the
handler normalizes the `.md` suffix away first. -/
def envC2 : Env :=
  ⟨⟨fun p => if p = s "h/pub/a.md.md" then some (s "hi") else none,
    fun _ => none, fun _ => true⟩,
   fun c => ([], c), fun b => b⟩

/-! ## Theorems -/

/-- C1: for every filesystem, every host and every candidate path that is
empty or starts with `/`, `loadDir` answers the containment error; the
result is the same for every filesystem, so no `ReadDir` call can have
influenced it — the guard precedes the read in the definition exactly as
in the source. -/
theorem c1_containment_guard (env : Env) (host path : GoStr)
    (h : path.length = 0 ∨ path.take 1 = s "/") :
    loadDir env host path = Except.error (s "Path not found") := by
  unfold loadDir
  rw [if_pos h]

/-- Witness for C1 at the absolute path `/etc` under two different
filesystems (one where the read would succeed, one where it would fail). -/
theorem c1_containment_guard_witness :
    loadDir envA (s "h") (s "/etc") = Except.error (s "Path not found")
    ∧ loadDir envH (s "h") (s "/etc") = Except.error (s "Path not found") :=
  ⟨c1_containment_guard envA (s "h") (s "/etc") (Or.inr (by decide)),
   c1_containment_guard envH (s "h") (s "/etc") (Or.inr (by decide))⟩

/-- The segment loop of `breadCrumb` computes the cumulative links of the
segments up to the first empty one. -/
theorem bcLoop_spec (segs : List GoStr) :
    ∀ pre, bcLoop segs pre = specCumulative pre (segs.takeWhile (fun seg => !seg.isEmpty)) := by
  induction segs with
  | nil => intro pre; rfl
  | cons p rest ih =>
    intro pre
    cases p with
    | nil => rfl
    | cons c cs =>
      have htw : List.takeWhile (fun seg => !List.isEmpty seg) ((c :: cs) :: rest)
          = (c :: cs) :: List.takeWhile (fun seg => !List.isEmpty seg) rest := by
        simp [List.takeWhile]
      rw [htw]
      simp only [bcLoop, specCumulative, List.length, if_neg (Nat.succ_ne_zero cs.length)]
      rw [ih]

/-- C5: the breadcrumb builder on `/a/b_c/d` yields exactly the claimed
links, and on every URL path (leading slash) it is the Home link followed
by one link per segment at its cumulative prefix, stopping at the first
empty segment after the leading-slash artifact. -/
theorem c5_breadcrumb :
    breadCrumb (s "/a/b_c/d") =
      [⟨s "Home", s "/"⟩, ⟨s "A", s "/a"⟩, ⟨s "B c", s "/a/b_c"⟩, ⟨s "D", s "/a/b_c/d"⟩]
    ∧ ∀ p : GoStr, p.take 1 = s "/" → breadCrumb p = specBreadCrumb p := by
  constructor
  · decide
  · intro p _
    unfold breadCrumb specBreadCrumb
    by_cases h : (goSplitSlash p).length = 1
    · have hdrop : (goSplitSlash p).drop 1 = [] := by
        apply List.drop_eq_nil_of_le
        omega
      rw [if_pos h, hdrop]
      rfl
    · rw [if_neg h, bcLoop_spec]
      rfl

/-- Witness for C5 on the URL path `/x_y/`. -/
theorem c5_breadcrumb_witness :
    breadCrumb (s "/x_y/") = specBreadCrumb (s "/x_y/") :=
  c5_breadcrumb.2 (s "/x_y/") (by decide)

/-- Every link emitted by the entry loop has a display title outside the
already-seen set. -/
theorem loadDirLoop_title_not_seen (base : GoStr) :
    ∀ (files : List DirEntry) (cache : List GoStr),
      ∀ l ∈ loadDirLoop base files cache, l.title ∉ cache := by
  intro files
  induction files with
  | nil => intro cache l hl; simp [loadDirLoop] at hl
  | cons e rest ih =>
    intro cache l hl
    unfold loadDirLoop at hl
    by_cases hskip : skipEntry e = true
    · rw [if_pos hskip] at hl
      exact ih cache l hl
    · rw [if_neg hskip] at hl
      by_cases hmem : stripMd e.name ∈ cache
      · rw [if_pos hmem] at hl
        exact ih cache l hl
      · rw [if_neg hmem] at hl
        rcases List.mem_cons.mp hl with heq | htail
        · subst heq
          exact hmem
        · have := ih (stripMd e.name :: cache) l htail
          exact fun hc => this (List.mem_cons_of_mem _ hc)

/-- The display titles emitted by the entry loop are pairwise distinct. -/
theorem loadDirLoop_titles_nodup (base : GoStr) :
    ∀ (files : List DirEntry) (cache : List GoStr),
      ((loadDirLoop base files cache).map Link.title).Nodup := by
  intro files
  induction files with
  | nil => intro cache; simp [loadDirLoop]
  | cons e rest ih =>
    intro cache
    unfold loadDirLoop
    by_cases hskip : skipEntry e = true
    · rw [if_pos hskip]; exact ih cache
    · rw [if_neg hskip]
      by_cases hmem : stripMd e.name ∈ cache
      · rw [if_pos hmem]; exact ih cache
      · rw [if_neg hmem]
        refine List.Nodup.cons ?_ (ih (stripMd e.name :: cache))
        intro hin
        rcases List.mem_map.mp hin with ⟨l, hl, ht⟩
        have := loadDirLoop_title_not_seen base rest (stripMd e.name :: cache) l hl
        exact this (by rw [ht, mkLinkOf]; exact List.mem_cons_self _ _)

/-- Unfolding equation of the entry loop on a cons cell. -/
theorem loadDirLoop_cons (base : GoStr) (e : DirEntry) (rest : List DirEntry)
    (cache : List GoStr) :
    loadDirLoop base (e :: rest) cache =
      if skipEntry e = true then loadDirLoop base rest cache
      else if stripMd e.name ∈ cache then loadDirLoop base rest cache
      else mkLinkOf base e :: loadDirLoop base rest (stripMd e.name :: cache) := rfl

/-- Entries rejected by the skip rule contribute nothing: filtering them
away first leaves the emitted links unchanged. -/
theorem loadDirLoop_filter_skipped (base : GoStr) :
    ∀ (files : List DirEntry) (cache : List GoStr),
      loadDirLoop base (files.filter (fun e => !skipEntry e)) cache
        = loadDirLoop base files cache := by
  intro files
  induction files with
  | nil => intro cache; rfl
  | cons e rest ih =>
    intro cache
    by_cases hskip : skipEntry e = true
    · have hf : (e :: rest).filter (fun e => !skipEntry e)
          = rest.filter (fun e => !skipEntry e) := by
        simp [List.filter, hskip]
      rw [hf, ih, loadDirLoop_cons, if_pos hskip]
    · have hf : (e :: rest).filter (fun e => !skipEntry e)
          = e :: rest.filter (fun e => !skipEntry e) := by
        simp [List.filter, hskip]
      rw [hf, loadDirLoop_cons, loadDirLoop_cons, if_neg hskip, if_neg hskip]
      by_cases hmem : stripMd e.name ∈ cache
      · rw [if_pos hmem, if_pos hmem, ih]
      · rw [if_neg hmem, if_neg hmem, ih]

/-- Every emitted link stems from a kept entry: its title is the entry
name with a trailing `.md` stripped, its path gets a trailing slash
exactly for directories. -/
theorem loadDirLoop_mem_src (base : GoStr) :
    ∀ (files : List DirEntry) (cache : List GoStr),
      ∀ l ∈ loadDirLoop base files cache,
        ∃ e ∈ files, skipEntry e = false ∧ l = mkLinkOf base e := by
  intro files
  induction files with
  | nil => intro cache l hl; simp [loadDirLoop] at hl
  | cons e rest ih =>
    intro cache l hl
    unfold loadDirLoop at hl
    by_cases hskip : skipEntry e = true
    · rw [if_pos hskip] at hl
      rcases ih cache l hl with ⟨e', he', hrest⟩
      exact ⟨e', List.mem_cons_of_mem _ he', hrest⟩
    · rw [if_neg hskip] at hl
      by_cases hmem : stripMd e.name ∈ cache
      · rw [if_pos hmem] at hl
        rcases ih cache l hl with ⟨e', he', hrest⟩
        exact ⟨e', List.mem_cons_of_mem _ he', hrest⟩
      · rw [if_neg hmem] at hl
        rcases List.mem_cons.mp hl with heq | htail
        · exact ⟨e, List.mem_cons_self _ _, Bool.eq_false_iff.mpr hskip, heq⟩
        · rcases ih (stripMd e.name :: cache) l htail with ⟨e', he', hrest⟩
          exact ⟨e', List.mem_cons_of_mem _ he', hrest⟩

/-- C4: a successful directory listing never repeats a display title;
hidden entries and the literal `_index.md` contribute nothing; every link
stems from a kept entry with the `.md` suffix stripped from its title and
a trailing slash on its path exactly for directories; and a directory
holding both `name.md` and `name/` collapses to the single link of the
first occurrence. -/
theorem c4_dir_listing :
    (∀ (env : Env) (host path : GoStr) (links : List Link),
        loadDir env host path = Except.ok links → (links.map Link.title).Nodup)
    ∧ (∀ (base : GoStr) (files : List DirEntry),
        loadDirLoop base (files.filter (fun e => !skipEntry e)) []
          = loadDirLoop base files [])
    ∧ (∀ (base : GoStr) (files : List DirEntry),
        ∀ l ∈ loadDirLoop base files [],
          ∃ e ∈ files, skipEntry e = false ∧ l = mkLinkOf base e)
    ∧ loadDirLoop (s "/d/") [⟨s "name.md", false⟩, ⟨s "name", true⟩] []
        = [⟨s "name", s "/d/name"⟩] := by
  refine ⟨?_, ?_, ?_, by decide⟩
  · intro env host path links hok
    unfold loadDir at hok
    by_cases hguard : path.length = 0 ∨ path.take 1 = s "/"
    · rw [if_pos hguard] at hok
      exact absurd hok (by simp)
    · rw [if_neg hguard] at hok
      cases hrd : env.fs.readDir path with
      | none => rw [hrd] at hok; exact absurd hok (by simp)
      | some files =>
        rw [hrd] at hok
        have hlinks : links = loadDirLoop (getUrl host path) files [] := by
          cases hok; rfl
        rw [hlinks]
        exact loadDirLoop_titles_nodup _ files []
  · intro base files
    exact loadDirLoop_filter_skipped base files []
  · intro base files
    exact loadDirLoop_mem_src base files []

/-- Witness for C4: a concrete successful listing with distinct titles,
plus a concrete source-attribution instance. -/
theorem c4_dir_listing_witness :
    (List.map Link.title [Link.mk (s "x") (s "/x")]).Nodup
    ∧ ∃ e ∈ [DirEntry.mk (s "x.md") false],
        skipEntry e = false ∧ Link.mk (s "x") (s "/x") = mkLinkOf (s "/") e :=
  ⟨c4_dir_listing.1 envA (s "h") (s "h/pub") [Link.mk (s "x") (s "/x")] (by decide),
   c4_dir_listing.2.2.1 (s "/") [DirEntry.mk (s "x.md") false]
      (Link.mk (s "x") (s "/x")) (by decide)⟩

/-- C3: for a cached (root, stage) entry, a render call strictly before the
timeout has elapsed since its parse time executes the cached template
without reparsing and leaves the cache unchanged; a call on an entry older
than `now - timeout` never executes that entry: it reparses, executes only
the fresh parse result, and on parse success overwrites the key with a
fresh entry whose parse time is `now`. -/
theorem c3_template_cache (templates : TemplateMap) (now cacheTimeout : Int)
    (host stage : GoStr) (parseFile : Option GoStr) (e : TemplateEntry)
    (hfound : mapLookup templates (tKey host stage) = some e) :
    (now - cacheTimeout < e.ts →
      renderTemplateStep templates now cacheTimeout host stage parseFile
        = ⟨templates, false, some e.t, false⟩)
    ∧ (e.ts < now - cacheTimeout →
        (renderTemplateStep templates now cacheTimeout host stage parseFile).parsed = true
        ∧ (renderTemplateStep templates now cacheTimeout host stage parseFile).executed
            = parseFile
        ∧ ∀ fresh, parseFile = some fresh →
            mapLookup
              (renderTemplateStep templates now cacheTimeout host stage parseFile).templates
              (tKey host stage) = some ⟨fresh, now⟩) := by
  constructor
  · intro hfresh
    have hd : decide (e.ts < now - cacheTimeout) = false := decide_eq_false (by omega)
    simp only [renderTemplateStep, hfound, hd]
    simp
  · intro hstale
    have hd : decide (e.ts < now - cacheTimeout) = true := decide_eq_true hstale
    simp only [renderTemplateStep, hfound, hd]
    cases parseFile with
    | none => simp
    | some fresh =>
      refine ⟨by simp, by simp, fun fresh2 h => ?_⟩
      cases h
      simp [mapLookup, List.find?]

/-- Witness for C3 at a concrete one-entry cache: a call at time 5 with
timeout 10 is fresh and executes the cached text; a call at time 100
reparses, executes the fresh text, and stores it with parse time 100. -/
theorem c3_template_cache_witness :
    renderTemplateStep [(tKey (s "h") (s "view"), ⟨s "old", 0⟩)] 5 10
        (s "h") (s "view") (some (s "new"))
      = ⟨[(tKey (s "h") (s "view"), ⟨s "old", 0⟩)], false, some (s "old"), false⟩
    ∧ (renderTemplateStep [(tKey (s "h") (s "view"), ⟨s "old", 0⟩)] 100 10
        (s "h") (s "view") (some (s "new"))).parsed = true
    ∧ mapLookup
        (renderTemplateStep [(tKey (s "h") (s "view"), ⟨s "old", 0⟩)] 100 10
          (s "h") (s "view") (some (s "new"))).templates
        (tKey (s "h") (s "view")) = some ⟨s "new", 100⟩ := by
  refine ⟨?_, ?_, ?_⟩
  · exact (c3_template_cache [(tKey (s "h") (s "view"), ⟨s "old", 0⟩)] 5 10
      (s "h") (s "view") (some (s "new")) ⟨s "old", 0⟩ (by decide)).1 (by decide)
  · exact ((c3_template_cache [(tKey (s "h") (s "view"), ⟨s "old", 0⟩)] 100 10
      (s "h") (s "view") (some (s "new")) ⟨s "old", 0⟩ (by decide)).2 (by decide)).1
  · exact ((c3_template_cache [(tKey (s "h") (s "view"), ⟨s "old", 0⟩)] 100 10
      (s "h") (s "view") (some (s "new")) ⟨s "old", 0⟩ (by decide)).2
        (by decide)).2.2 (s "new") rfl

/-- C9 (code bug): with front matter carrying `time: 19:30` and no `date`
key, the constructed PageInfo reports the current clock (`12:00`), not the
supplied value — the date-absent branch overwrites the already-applied
`time` key, contradicting the per-key contract of the spec. -/
theorem c9_time_clobbered :
    (NewPageInfo nowT [(s "time", YamlVal.str (s "19:30"))]).map PageInfo.timeOfDay
      = Except.ok (s "12:00")
    ∧ (NewPageInfo nowT [(s "time", YamlVal.str (s "19:30"))]).map PageInfo.timeOfDay
      ≠ Except.ok (s "19:30") := by decide

/-- The title block never panics on all-string metadata. -/
theorem npTitleStep_total (f : FrontMatter) (pi : PageInfo)
    (hstr : ∀ k v, fmGet f k = some v → ∃ sv, v = YamlVal.str sv) :
    ∃ pi2, npTitleStep f pi = Except.ok pi2 := by
  unfold npTitleStep
  cases h : fmGet f (s "title") with
  | none => exact ⟨pi, rfl⟩
  | some v =>
    obtain ⟨sv, rfl⟩ := hstr _ _ h
    exact ⟨_, rfl⟩

/-- The author block never panics on all-string metadata. -/
theorem npAuthorStep_total (f : FrontMatter) (pi : PageInfo)
    (hstr : ∀ k v, fmGet f k = some v → ∃ sv, v = YamlVal.str sv) :
    ∃ pi2, npAuthorStep f pi = Except.ok pi2 := by
  unfold npAuthorStep
  cases h : fmGet f (s "author") with
  | none => exact npTitleStep_total f pi hstr
  | some v =>
    obtain ⟨sv, rfl⟩ := hstr _ _ h
    exact npTitleStep_total f _ hstr

/-- The date block never panics on all-string metadata. -/
theorem npDateStep_total (now : GoTime) (f : FrontMatter) (pi : PageInfo)
    (hstr : ∀ k v, fmGet f k = some v → ∃ sv, v = YamlVal.str sv) :
    ∃ pi2, npDateStep now f pi = Except.ok pi2 := by
  unfold npDateStep
  cases h : fmGet f (s "date") with
  | none => exact npAuthorStep_total f _ hstr
  | some v =>
    obtain ⟨sv, rfl⟩ := hstr _ _ h
    exact npAuthorStep_total f _ hstr

/-- C10: PageInfo construction is total on all-string metadata, and a
single non-string value (here a YAML integer under `title`) panics via
the unchecked type assertion instead of falling back to the default. -/
theorem c10_nonstring_panics :
    (∀ (now : GoTime) (f : FrontMatter),
        (∀ k v, fmGet f k = some v → ∃ sv, v = YamlVal.str sv) →
        ∃ pi, NewPageInfo now f = Except.ok pi)
    ∧ NewPageInfo nowT [(s "title", YamlVal.int 3)]
        = Except.error (s "panic: interface conversion") := by
  constructor
  · intro now f hstr
    unfold NewPageInfo
    cases h : fmGet f (s "time") with
    | none => exact npDateStep_total now f _ hstr
    | some v =>
      obtain ⟨sv, rfl⟩ := hstr _ _ h
      exact npDateStep_total now f _ hstr
  · decide

/-- Witness for C10 on the empty (hence all-string) mapping. -/
theorem c10_nonstring_panics_witness :
    ∃ pi, NewPageInfo nowT [] = Except.ok pi :=
  c10_nonstring_panics.1 nowT []
    (by intro k v h; simp [fmGet] at h)

/-- On a path longer than 3 that ends in `.md`, the `loadPage`
normalization strips exactly that suffix. -/
theorem loadPagePath_md (p : GoStr) (hmd : strTakeRight p 3 = s ".md")
    (hlen : 3 < p.length) : loadPagePath p = strDropRight p 3 := by
  have hd : strTakeRight p 1 = s "d" := by
    unfold strTakeRight at hmd ⊢
    rw [show p.length - 1 = (p.length - 3) + 2 by omega, ← List.drop_drop, hmd]
    decide
  have hslash : ¬ strTakeRight p 1 = s "/" := by rw [hd]; decide
  unfold loadPagePath
  rw [if_neg (by omega : ¬ p.length = 0), if_neg hslash, if_pos ⟨hlen, hmd⟩]

/-- C6 counterexample: the claim fails at the path `.md` (three characters,
so the suffix is not stripped): resolving `.md` reads `.md.md`, while
resolving its stripped form (the empty path) reads `index.md`, and on a
filesystem holding `index.md` the results differ. -/
theorem c6_counterexample :
    loadPage envA (s ".md") ≠ loadPage envA []
    ∧ loadPageFilename (s ".md") = s ".md.md"
    ∧ loadPageFilename [] = s "index.md" := by decide

/-- C6 (amended): for a path longer than three characters ending in `.md`
whose stripped form is itself left unchanged by the normalization,
resolving the path and resolving its stripped form read the same
`<stripped>.md` file and return the same result. -/
theorem c6_md_suffix (env : Env) (p : GoStr)
    (hmd : strTakeRight p 3 = s ".md") (hlen : 3 < p.length)
    (hq : loadPagePath (strDropRight p 3) = strDropRight p 3) :
    loadPage env p = loadPage env (strDropRight p 3)
    ∧ loadPageFilename p = strDropRight p 3 ++ s ".md"
    ∧ loadPageFilename (strDropRight p 3) = strDropRight p 3 ++ s ".md" := by
  have hp := loadPagePath_md p hmd hlen
  refine ⟨?_, ?_, ?_⟩
  · simp only [loadPage]
    rw [hp, hq]
  · unfold loadPageFilename
    rw [hp]
  · unfold loadPageFilename
    rw [hq]

/-- Witness for the amended C6 at `ab.md`. -/
theorem c6_md_suffix_witness :
    loadPage envA (s "ab.md") = loadPage envA (s "ab")
    ∧ loadPageFilename (s "ab.md") = s "ab" ++ s ".md"
    ∧ loadPageFilename (s "ab") = s "ab" ++ s ".md" :=
  c6_md_suffix envA (s "ab.md") (by decide) (by decide) (by decide)

/-- Appending a slash always makes the normalization strip it back off. -/
theorem loadPagePath_trailing_slash (p : GoStr) :
    loadPagePath (p ++ s "/") = p := by
  have hlen1 : (p ++ s "/").length = p.length + 1 := by
    rw [List.length_append]
    rfl
  unfold loadPagePath
  have h1 : strTakeRight (p ++ s "/") 1 = s "/" := by
    unfold strTakeRight
    rw [hlen1, Nat.add_sub_cancel]
    exact List.drop_left' rfl
  rw [if_neg (by omega : ¬ (p ++ s "/").length = 0), if_pos h1]
  unfold strDropRight
  rw [hlen1, Nat.add_sub_cancel]
  exact List.take_left' rfl

/-- C7 counterexample: the claim fails at `a.md`: resolving `a.md/` reads
`a.md.md`, while resolving `a.md` reads `a.md`, and on a filesystem
holding `a.md` the results differ. -/
theorem c7_counterexample :
    loadPage envA (s "a.md/") ≠ loadPage envA (s "a.md")
    ∧ loadPageFilename (s "a.md/") = s "a.md.md"
    ∧ loadPageFilename (s "a.md") = s "a.md" := by decide

/-- C7 (amended): for every path that the normalization leaves unchanged
(nonempty, no trailing slash, no strippable `.md` suffix), resolving the
path with a trailing slash appended equals resolving the path itself, and
both read the same `<path>.md` file. -/
theorem c7_trailing_slash (env : Env) (p : GoStr) (hfix : loadPagePath p = p) :
    loadPage env (p ++ s "/") = loadPage env p
    ∧ loadPageFilename (p ++ s "/") = p ++ s ".md"
    ∧ loadPageFilename p = p ++ s ".md" := by
  have hp := loadPagePath_trailing_slash p
  refine ⟨?_, ?_, ?_⟩
  · simp only [loadPage]
    rw [hp, hfix]
  · unfold loadPageFilename
    rw [hp]
  · unfold loadPageFilename
    rw [hfix]

/-- Witness for the amended C7 at `a`. -/
theorem c7_trailing_slash_witness :
    loadPage envA (s "a" ++ s "/") = loadPage envA (s "a")
    ∧ loadPageFilename (s "a" ++ s "/") = s "a" ++ s ".md"
    ∧ loadPageFilename (s "a") = s "a" ++ s ".md" :=
  c7_trailing_slash envA (s "a") (by decide)

/-- C8 counterexample: for host `h` with a `pub/` subtree but no
`templates/` subtree, the handler answers the implicit status 200 (the
inline error page never calls `WriteHeader`), not the claimed 500. -/
theorem c8_counterexample :
    (runPageHandler envH rH).1.status = 200
    ∧ ¬ (runPageHandler envH rH).1.status = 500 := by decide

/-- C8 (amended): whenever the site root of the request lacks `pub/` or
`templates/`, the handler writes the fixed domain-error message with the
offending host substituted, at the implicit status 200, and renders none
of the four template stages. -/
theorem c8_domain_error (env : Env) (r : Request)
    (h : ¬ (env.fs.stat (goFilepathJoin r.host (s "pub")) = true
            ∧ env.fs.stat (goFilepathJoin r.host (s "templates")) = true)) :
    runPageHandler env r
      = (⟨200, RespBody.domainErr
            (s "Sorry, this server doesn't know how to serve " ++ r.host ++ s "!")⟩,
         []) := by
  simp only [runPageHandler, checkDomain, domainErrorBody]
  rw [if_neg h]

/-- Witness for the amended C8 at the concrete host `h`. -/
theorem c8_domain_error_witness :
    runPageHandler envH rH
      = (⟨200, RespBody.domainErr
            (s "Sorry, this server doesn't know how to serve " ++ rH.host ++ s "!")⟩,
         []) :=
  c8_domain_error envH rH (by decide)

/-- C2 counterexample: the claim fails at the request path `/a.md` on a
filesystem holding only `h/pub/a.md.md`: the literal first candidate
`<root>/<path>.md` would be `h/pub/a.md.md` and succeed as a page, but
the handler first strips the `.md` suffix and reads `h/pub/a.md`, so the
real chain exhausts all candidates and answers not found. -/
theorem c2_counterexample :
    pageHandlerOutcome envC2 ⟨s "h", s "/a.md"⟩ ≠ specResolve envC2 ⟨s "h", s "/a.md"⟩
    ∧ pageHandlerOutcome envC2 ⟨s "h", s "/a.md"⟩ = Outcome.notFound
    ∧ specResolve envC2 ⟨s "h", s "/a.md"⟩ = Outcome.page (s "hi") [] := by decide

/-- C2 (amended): for a request whose public path is left unchanged by
the page normalization (the regular case: nonempty, no trailing slash, no
strippable `.md` suffix, clean join), the handler chain equals the
first-success scan over the four candidates in the claimed order:
`<root>/<path>.md`, `<root>/<path>/index.md`, `<root>/<path>` as a raw
file, `<path>` as a directory listing; `notFound` exactly when all fail. -/
theorem c2_resolution_order (env : Env) (r : Request)
    (h1 : loadPagePath (getPubPath r) = getPubPath r)
    (h2 : goFilepathJoin (getPubPath r) (s "index") = getPubPath r ++ s "/index")
    (h3 : loadPagePath (getPubPath r ++ s "/index") = getPubPath r ++ s "/index") :
    pageHandlerOutcome env r = specResolve env r := by
  have hidx : (getPubPath r ++ s "/index") ++ s ".md" = getPubPath r ++ s "/index.md" := by
    rw [List.append_assoc]
    rfl
  have hl1 : loadPage env (getPubPath r) =
      match env.fs.readFile (getPubPath r ++ s ".md") with
      | none => Except.error (s "Page not found: " ++ getPubPath r)
      | some contents =>
        Except.ok (env.markdown (env.frontParse contents).2, (env.frontParse contents).1) := by
    simp only [loadPage, h1]
  have hl2 : loadPage env (goFilepathJoin (getPubPath r) (s "index")) =
      match env.fs.readFile (getPubPath r ++ s "/index.md") with
      | none => Except.error (s "Page not found: " ++ (getPubPath r ++ s "/index"))
      | some contents =>
        Except.ok (env.markdown (env.frontParse contents).2, (env.frontParse contents).1) := by
    rw [h2]
    simp only [loadPage, h3, hidx]
  simp only [pageHandlerOutcome, specResolve, fileHandlerOutcome, dirHandlerOutcome,
    specTryDir, mkPage]
  rw [hl1, hl2]
  cases hf1 : env.fs.readFile (getPubPath r ++ s ".md") with
  | some c => simp [firstSome, mkPage]
  | none =>
    cases hf2 : env.fs.readFile (getPubPath r ++ s "/index.md") with
    | some c => simp [firstSome, mkPage]
    | none =>
      cases hf3 : env.fs.readFile (getPubPath r) with
      | some c => simp [firstSome, mkPage]
      | none =>
        cases hld : loadDir env r.host (getPubPath r) with
        | error e => simp [firstSome]
        | ok dir => simp [firstSome]

/-- Witness for C2: a concrete request for `/x` on host `h` whose page
candidate misses but whose index candidate could be scanned; the chain and
the candidate scan agree. -/
theorem c2_resolution_order_witness :
    pageHandlerOutcome envA ⟨s "h", s "/x"⟩ = specResolve envA ⟨s "h", s "/x"⟩ :=
  c2_resolution_order envA ⟨s "h", s "/x"⟩ (by decide) (by decide) (by decide)

end Wurk
